import Mathlib

/-!
# s3-sync: a shallow embedding of `main.go`

The program drives the `aws` command line tool: one full `s3 sync`, one
`s3api list-objects-v2`, then one `s3 cp` per remote object whose entity tag
differs from the MD5 digest of the local file.  The output of the child
processes is read line by line by `process`, which extracts `s3://` URIs.

The embedding keeps the Go names.  External effects (the file system, the
child processes) are oracles collected in `World`; the global variables that
`process` and `sync` mutate, and what they print, are the fields of `State`.
-/

namespace S3Sync

/-! ## Go strings and the functions of package `strings` that the program calls -/

/-- A Go `string`: an immutable sequence of bytes. -/
abbrev GoString := List UInt8

/-- The bytes of an ASCII literal of the source. -/
def lit (s : String) : GoString := s.toList.map (fun c => c.toNat.toUInt8)

/-- Go `strings.HasPrefix(s, p)`. -/
def HasPrefix (s p : GoString) : Bool := p.isPrefixOf s

/-- Go `strings.TrimPrefix(s, p)`: `s` without the leading `p`, or `s` itself. -/
def TrimPrefix (s p : GoString) : GoString :=
  if HasPrefix s p then s.drop p.length else s

/-- Go `strings.Index(s, sep)`: the offset of the first place where `sep` occurs
in `s`, `none` for Go's `-1`. -/
def Index : GoString → GoString → Option Nat
  | [], sep => if sep = [] then some 0 else none
  | c :: cs, sep =>
    if sep.isPrefixOf (c :: cs) then some 0 else (Index cs sep).map (· + 1)

/-- Go `strings.Contains(s, substr)`, which is `Index(s, substr) >= 0`. -/
def Contains (s substr : GoString) : Bool := (Index s substr).isSome

/-- The loop of Go's `strings.genSplit` for a non-empty separator: cut at the
next occurrence of `sep`, at most `n` times, and end with what is left. -/
def genSplit (sep : GoString) : Nat → GoString → List GoString
  | 0, s => [s]
  | n + 1, s =>
    match Index s sep with
    | none => [s]
    | some m => s.take m :: genSplit sep n (s.drop (m + sep.length))

/-- Go `strings.Split(s, sep)` for a non-empty `sep` (the program only splits at
`s3://`).  Go runs the loop `Count(s, sep)` times, and a non-empty separator
occurs at most `len(s)` times without overlap, so `len(s)` rounds reach the
end of the string: the loop then stops at the first `Index` that finds nothing
(`genSplit_succ`: further rounds change nothing). -/
def Split (s sep : GoString) : List GoString := genSplit sep s.length s

/-- Go `strings.Replace(s, old, new, 1)`: the first occurrence of `old` replaced by
`new`.  Go returns `s` when `old == new` or when `old` does not occur; an empty
`old` matches at offset 0. -/
def ReplaceOnce (s old new : GoString) : GoString :=
  if old = new then s
  else
    match Index s old with
    | none => s
    | some j => s.take j ++ new ++ s.drop (j + old.length)

/-! ## The pure helpers of `main.go` -/

/-- The scheme marker `s3://`. -/
def marker : GoString := lit "s3://"

/-- `bucketNameNoProtocol` of `main.go`. -/
def bucketNameNoProtocol (s3Uri : GoString) : GoString :=
  if HasPrefix s3Uri marker then TrimPrefix s3Uri marker else s3Uri

/-- `extractS3Uri` of `main.go`: split the line at every `s3://` and, when there
is more than one piece, return `s3://` followed by the second piece. -/
def extractS3Uri (line : GoString) : GoString :=
  let split := Split line marker
  if split.length > 1 then marker ++ split.getD 1 [] else []

/-- `trimQuotes` of `main.go`; `34` is the byte of the double quote and
`s[1 : len(s)-1]` is `(s.take (len - 1)).drop 1`. -/
def trimQuotes (s : GoString) : GoString :=
  if s.length ≥ 2 then
    if s[0]? = some 34 ∧ s[s.length - 1]? = some 34 then (s.take (s.length - 1)).drop 1
    else s
  else s

/-- The start-up check of `main`: the run goes on to `sync` only when
`strings.Contains(bucket, "s3://")` holds. -/
def validBucket (bucket : GoString) : Bool := Contains bucket marker

/-! ## The run: configuration, mutable state, environment -/

/-- One entry of the listing (`type bucketObject`). -/
structure bucketObject where
  Key : GoString
  ETag : GoString
deriving DecidableEq

/-- The parsed listing (`type bucketObjectList`). -/
structure bucketObjectList where
  Contents : List bucketObject
deriving DecidableEq

/-- The flag variables that `sync` and `process` read; they are fixed once
`flag.Parse` has run. -/
structure Config where
  dryRun : Bool
  localDir : GoString
  bucket : GoString
  baseURL : GoString
deriving DecidableEq

/-- What a run changes and shows.  `urls` holds the keys of the global map
`urls`; `written` the argument of every call of `writeURLtoFile`, in order;
`printed` every line given to `fmt.Println`, in order; `commands` the argument
vector of every `aws` command created so far, in order. -/
structure State where
  urls : List GoString
  written : List GoString
  printed : List GoString
  commands : List (List GoString)
deriving DecidableEq

/-- The state at the start of `main`: an empty map, nothing written or run. -/
def State.init : State := { urls := [], written := [], printed := [], commands := [] }

/-- The result of `hashFileMD5`: the hex digest, an error for which
`os.IsNotExist` holds, or any other error. -/
inductive HashResult where
  | digest (fileHash : GoString)
  | notFound
  | ioError
deriving DecidableEq

/-- What `process` sees of a child: the lines the scanner yields, and whether
both `cmd.Start` and `cmd.Wait` return no error (a child that cannot be started
yields no line). -/
structure ChildRun where
  lines : List GoString
  ok : Bool
deriving DecidableEq

/-- The result of the listing command inside `getBucketObjects`: `cmd.Run` fails
with the captured output `out`, the output is not JSON of the expected shape, or
the parsed listing. -/
inductive ListResult where
  | runError (out : GoString)
  | parseError
  | listed (objList : bucketObjectList)
deriving DecidableEq

/-- The world outside the program.  Every oracle also receives the commands run
before the call, so its answer may change as the run goes on. -/
structure World where
  hashFileMD5 : List (List GoString) → GoString → HashResult
  run : List (List GoString) → List GoString → ChildRun
  list : List (List GoString) → List GoString → ListResult

/-- How a call ends: it returns, or `log.Fatal` ends the program. -/
inductive Outcome where
  | returned (st : State)
  | fatal (st : State)
deriving DecidableEq

/-- The state in which a call ended. -/
def Outcome.state : Outcome → State
  | .returned st => st
  | .fatal st => st

/-! ## `process`, `getBucketObjects`, `sync` -/

/-- The two `strings.Replace` calls of `process`: the first occurrence of
`bucket` becomes `baseURL`, then the first occurrence of `index.html` is removed. -/
def derivedURL (cfg : Config) (s3Uri : GoString) : GoString :=
  let url := ReplaceOnce s3Uri cfg.bucket cfg.baseURL
  ReplaceOnce url (lit "index.html") []

/-- The body of the scanner loop of `process` for one line. -/
def processLine (cfg : Config) (st : State) (line : GoString) : State :=
  let s3Uri := extractS3Uri line
  if s3Uri ≠ [] then
    let st := { st with urls := if s3Uri ∈ st.urls then st.urls else st.urls ++ [s3Uri] }
    let st :=
      if cfg.baseURL ≠ [] then { st with written := st.written ++ [derivedURL cfg s3Uri] }
      else st
    { st with printed := st.printed ++ [line] }
  else st

/-- The scanner loop of `process` over all lines of the child. -/
def processLines (cfg : Config) (lines : List GoString) (st : State) : State :=
  lines.foldl (processLine cfg) st

/-- `process(exec.Command("aws", args...))`: the command is created, its lines
are handled one by one, and a failure of `Start` or `Wait` is fatal after the
lines have been handled. -/
def process (cfg : Config) (w : World) (args : List GoString) (st : State) : Outcome :=
  let child := w.run st.commands args
  let st := processLines cfg child.lines { st with commands := st.commands ++ [args] }
  if child.ok then .returned st else .fatal st

/-- The arguments of the listing command of `getBucketObjects`. -/
def listArgs (cfg : Config) : List GoString :=
  [lit "s3api", lit "list-objects-v2", lit "--bucket", bucketNameNoProtocol cfg.bucket]

/-- `getBucketObjects`: the listing, or a fatal end (after printing the captured
output when the command itself failed). -/
def getBucketObjects (cfg : Config) (w : World) (st : State) : Except State (bucketObjectList × State) :=
  let st1 := { st with commands := st.commands ++ [listArgs cfg] }
  match w.list st.commands (listArgs cfg) with
  | .runError out => .error { st1 with printed := st1.printed ++ [out] }
  | .parseError => .error st1
  | .listed objList => .ok (objList, st1)

/-- The path `localDir + "/" + obj.Key`, which `sync` uses as `filePath` and as
`remoteFilePath`. -/
def localPath (cfg : Config) (obj : bucketObject) : GoString :=
  cfg.localDir ++ lit "/" ++ obj.Key

/-- The arguments of the copy command built in the loop of `sync`. -/
def copyArgs (cfg : Config) (obj : bucketObject) : List GoString :=
  let filePath := localPath cfg obj
  let remoteFilePath := localPath cfg obj
  let args := [lit "s3", lit "cp", filePath, remoteFilePath]
  if cfg.dryRun then args ++ [lit "--dryrun"] else args

/-- The loop of `sync` over `bucketObjects.Contents`. -/
def syncObjects (cfg : Config) (w : World) : List bucketObject → State → Outcome
  | [], st => .returned st
  | obj :: rest, st =>
    match w.hashFileMD5 st.commands (localPath cfg obj) with
    | .notFound => syncObjects cfg w rest st
    | .ioError => .fatal st
    | .digest fileHash =>
      let remoteHash := trimQuotes obj.ETag
      if fileHash ≠ remoteHash then
        if localPath cfg obj ∈ st.urls then syncObjects cfg w rest st
        else
          match process cfg w (copyArgs cfg obj) st with
          | .fatal st => .fatal st
          | .returned st => syncObjects cfg w rest st
      else syncObjects cfg w rest st

/-- The arguments of the full sync command of `sync`. -/
def syncArgs (cfg : Config) : List GoString :=
  let args := [lit "s3", lit "sync", cfg.localDir, cfg.bucket, lit "--delete", lit "--size-only",
    lit "--exclude=*.DS_Store"]
  if cfg.dryRun then args ++ [lit "--dryrun"] else args

/-- `sync`: the full sync, the listing, the loop.  (`os.Remove(outputPath)` comes
first; the file itself is not part of the state, `written` lists this run's
calls of `writeURLtoFile`.) -/
def sync (cfg : Config) (w : World) (st : State) : Outcome :=
  match process cfg w (syncArgs cfg) st with
  | .fatal st => .fatal st
  | .returned st =>
    match getBucketObjects cfg w st with
    | .error st => .fatal st
    | .ok (bucketObjects, st) => syncObjects cfg w bucketObjects.Contents st

/-! ## Concrete runs used below -/

/-- The configuration of the scenarios: `-local-dir www -bucket s3://mybucket
-base-url https://example.com`. -/
def demoConfig : Config :=
  { dryRun := false, localDir := lit "www", bucket := lit "s3://mybucket",
    baseURL := lit "https://example.com" }

/-- Object `a.txt` whose tag is the quoted digest of the empty file. -/
def objA : bucketObject := { Key := lit "a.txt", ETag := lit "\"d41d8cd98f00b204e9800998ecf8427e\"" }

/-- Object `b.txt` with the all-zero tag. -/
def objB : bucketObject := { Key := lit "b.txt", ETag := lit "\"00000000000000000000000000000000\"" }

/-- Object `c.txt` whose local file cannot be read. -/
def objC : bucketObject := { Key := lit "c.txt", ETag := lit "\"00000000000000000000000000000000\"" }

/-- Object `d.txt` that has no local file. -/
def objD : bucketObject := { Key := lit "d.txt", ETag := lit "\"00000000000000000000000000000000\"" }

/-- A world for the scenarios: `www/a.txt` is empty, `www/b.txt` has content with
another digest, `www/c.txt` cannot be read, no other file exists; the full sync
reports the upload of `b.txt`, every other command prints nothing; the listing
holds `a.txt` and `b.txt`. -/
def demoWorld : World where
  hashFileMD5 := fun _ path =>
    if path = lit "www/a.txt" then .digest (lit "d41d8cd98f00b204e9800998ecf8427e")
    else if path = lit "www/b.txt" then .digest (lit "9e107d9d372bb6826bd81d3542a419d6")
    else if path = lit "www/c.txt" then .ioError
    else .notFound
  run := fun _ args =>
    if args = syncArgs demoConfig then
      { lines := [lit "upload: www/b.txt to s3://mybucket/b.txt"], ok := true }
    else { lines := [], ok := true }
  list := fun _ _ => .listed { Contents := [objA, objB] }

/-- The same configuration with `-dryrun`. -/
def dryConfig : Config := { demoConfig with dryRun := true }

/-- A world in which every child prints `lines` and ends well, no local file
exists and the listing is empty. -/
def echoWorld (lines : List GoString) : World where
  hashFileMD5 := fun _ _ => .notFound
  run := fun _ _ => { lines := lines, ok := true }
  list := fun _ _ => .listed { Contents := [] }

/-- Object `e.txt` with the all-zero tag. -/
def objE : bucketObject := { Key := lit "e.txt", ETag := lit "\"00000000000000000000000000000000\"" }

/-- A world with three readable local files: `www/a.txt` is empty, `www/b.txt` and
`www/e.txt` have content with other digests.  Every child reports one upload and
ends well; the listing holds `b.txt`, `a.txt`, `e.txt`. -/
def copyWorld : World where
  hashFileMD5 := fun _ path =>
    if path = lit "www/a.txt" then .digest (lit "d41d8cd98f00b204e9800998ecf8427e")
    else if path = lit "www/b.txt" then .digest (lit "9e107d9d372bb6826bd81d3542a419d6")
    else if path = lit "www/e.txt" then .digest (lit "e4d909c290d0fb1ca068ffaddf22cbd0")
    else .notFound
  run := fun _ _ => { lines := [lit "upload: www/b.txt to s3://mybucket/b.txt"], ok := true }
  list := fun _ _ => .listed { Contents := [objB, objA, objE] }

/-- What hashing the local file of an object gives in `copyWorld`. -/
def copyWorldHash (obj : bucketObject) : HashResult :=
  copyWorld.hashFileMD5 [] (localPath demoConfig obj)

/-- The claim's account of the loop of `sync`, to be compared with `syncObjects`:
given what hashing each object's local file yields (`r`), the commands of the
pass are, in listing order, one `s3 cp localPath localPath` (with `--dryrun` under
dry-run) for every object whose file can be read and whose digest differs from
`trimQuotes(ETag)`, and nothing for the other objects. -/
def specCopies (cfg : Config) (r : bucketObject → HashResult) (objs : List bucketObject) :
    List (List GoString) :=
  (objs.filter (fun obj =>
      match r obj with
      | .digest fileHash => decide (fileHash ≠ trimQuotes obj.ETag)
      | _ => false)).map
    (fun obj =>
      [lit "s3", lit "cp", cfg.localDir ++ lit "/" ++ obj.Key, cfg.localDir ++ lit "/" ++ obj.Key]
        ++ (if cfg.dryRun then [lit "--dryrun"] else []))

example : extractS3Uri (lit "upload: a to s3://b/a") = lit "s3://b/a" := by decide
example : extractS3Uri (lit "no uri here") = [] := by decide
example : extractS3Uri (lit "copy: s3://a to s3://b") = lit "s3://a to " := by decide
example : trimQuotes (lit "\"abc\"") = lit "abc" := by decide
example : trimQuotes (lit "\"") = lit "\"" := by decide
example : bucketNameNoProtocol (lit "s3://bucket") = lit "bucket" := by decide
example : bucketNameNoProtocol (lit "xs3://bucket") = lit "xs3://bucket" := by decide
example : ReplaceOnce (lit "s3://b/index.html") (lit "s3://b") (lit "https://e.com")
    = lit "https://e.com/index.html" := by decide

set_option maxRecDepth 4000 in
example : (sync demoConfig demoWorld State.init).state.commands =
    [syncArgs demoConfig, listArgs demoConfig, copyArgs demoConfig objB] := by decide
set_option maxRecDepth 4000 in
example : (sync demoConfig demoWorld State.init).state.urls = [lit "s3://mybucket/b.txt"] := by decide
set_option maxRecDepth 4000 in
example : (sync demoConfig demoWorld State.init).state.written = [lit "https://example.com/b.txt"] := by decide

/-! ## Facts about the `strings` functions -/

theorem marker_length : marker.length = 5 := by decide

theorem marker_ne_nil : marker ≠ [] := by decide

/-- At the offset that `Index` returns `sep` occurs, and it occurs at no earlier offset. -/
theorem Index_some {sep : GoString} : ∀ {s : GoString} {m : Nat}, Index s sep = some m →
    sep <+: s.drop m ∧ ∀ i, i < m → ¬ sep <+: s.drop i
  | [], m, h => by
    by_cases hs : sep = []
    · simp [Index, hs] at h
      subst h
      simp [hs]
    · simp [Index, hs] at h
  | c :: cs, m, h => by
    by_cases hp : sep.isPrefixOf (c :: cs) = true
    · simp only [Index, hp, if_true, Option.some.injEq] at h
      subst h
      exact ⟨by simpa using List.isPrefixOf_iff_prefix.mp hp, fun i hi => absurd hi (Nat.not_lt_zero i)⟩
    · simp only [Index, hp, Bool.false_eq_true, if_false, Option.map_eq_some'] at h
      obtain ⟨k, hk, rfl⟩ := h
      obtain ⟨h1, h2⟩ := Index_some hk
      refine ⟨by simpa using h1, fun i hi => ?_⟩
      cases i with
      | zero => simpa using fun hh => hp (List.isPrefixOf_iff_prefix.mpr hh)
      | succ j => simpa using h2 j (by omega)

/-- `Index` finds nothing exactly when `sep` occurs nowhere in `s`. -/
theorem Index_none_iff {sep : GoString} : ∀ {s : GoString}, Index s sep = none ↔ ¬ sep <:+: s
  | [] => by
    by_cases hs : sep = []
    · simp [Index, hs]
    · simp [Index, hs]
  | c :: cs => by
    by_cases hp : sep.isPrefixOf (c :: cs) = true
    · simp only [Index, hp, if_true]
      simpa using (List.isPrefixOf_iff_prefix.mp hp).isInfix
    · have hp2 : ¬ sep <+: c :: cs := fun hh => hp (List.isPrefixOf_iff_prefix.mpr hh)
      simp only [Index, hp, Bool.false_eq_true, if_false, Option.map_eq_none',
        List.infix_cons_iff, not_or]
      rw [Index_none_iff]
      exact ⟨fun h => ⟨hp2, h⟩, fun h => h.2⟩

theorem Contains_iff {s sep : GoString} : Contains s sep = true ↔ sep <:+: s := by
  unfold Contains
  rw [← not_iff_not, ← Index_none_iff]
  cases Index s sep <;> simp

theorem Contains_eq_false_iff {s sep : GoString} : Contains s sep = false ↔ Index s sep = none := by
  unfold Contains
  cases Index s sep <;> simp

/-- A string that starts with `sep` has its first occurrence at offset 0. -/
theorem Index_of_starts {sep : GoString} : ∀ {s : GoString}, sep <+: s → Index s sep = some 0
  | [], h => by
    have : sep = [] := List.prefix_nil.mp h
    simp [Index, this]
  | c :: cs, h => by
    simp [Index, List.isPrefixOf_iff_prefix.mpr h]

/-- The first occurrence is where `Index` says: `p ++ sep ++ q` with no occurrence of
`sep` that starts inside `p`. -/
theorem Index_eq_length {sep : GoString} : ∀ (p q : GoString),
    (∀ i, i < p.length → ¬ sep <+: (p ++ sep ++ q).drop i) → Index (p ++ sep ++ q) sep = some p.length
  | [], q, _ => by
    simpa using Index_of_starts (s := sep ++ q) (List.prefix_append sep q)
  | c :: p, q, h => by
    have h0 : ¬ sep <+: c :: (p ++ sep ++ q) := by simpa using h 0 (by simp)
    have hp : ¬ sep.isPrefixOf (c :: (p ++ sep ++ q)) = true :=
      fun hh => h0 (List.isPrefixOf_iff_prefix.mp hh)
    have ih := Index_eq_length p q (fun i hi => by simpa using h (i + 1) (by simpa using hi))
    show Index (c :: (p ++ sep ++ q)) sep = some (p.length + 1)
    simp only [List.append_assoc] at h0 ih
    simp [Index, h0, ih]

/-- Before the first occurrence there is no occurrence. -/
theorem not_infix_take {sep s : GoString} {m : Nat} (hne : sep ≠ [])
    (h : ∀ i, i < m → ¬ sep <+: s.drop i) : ¬ sep <:+: s.take m := by
  rintro ⟨a, b, hab⟩
  have hlen : a.length + sep.length + b.length = (s.take m).length := by
    rw [← hab]; simp [Nat.add_assoc]
  have hsep : 0 < sep.length := List.length_pos.mpr hne
  have htake : (s.take m).length ≤ m := by simp
  refine h a.length (by omega) ?_
  have hs : s = a ++ sep ++ b ++ s.drop m := by rw [hab, List.take_append_drop]
  refine ⟨b ++ s.drop m, ?_⟩
  conv_rhs => rw [hs]
  simp [List.append_assoc]

theorem genSplit_none {sep s : GoString} (h : Index s sep = none) (n : Nat) :
    genSplit sep n s = [s] := by
  cases n <;> simp [genSplit, h]

theorem genSplit_ne_nil (sep : GoString) (n : Nat) (s : GoString) : genSplit sep n s ≠ [] := by
  cases n with
  | zero => simp [genSplit]
  | succ n =>
    cases h : Index s sep <;> simp [genSplit, h]

/-- More rounds than the string has bytes change nothing: with `len(s)` rounds the
loop of `genSplit` ends because `Index` finds no further separator. -/
theorem genSplit_succ {sep : GoString} (hne : sep ≠ []) :
    ∀ (n : Nat) (s : GoString), s.length ≤ n → genSplit sep (n + 1) s = genSplit sep n s
  | 0, s, h => by
    have hs : s = [] := List.length_eq_zero.mp (Nat.le_zero.mp h)
    subst hs
    simp [genSplit, Index, hne]
  | n + 1, s, h => by
    cases hi : Index s sep with
    | none => simp [genSplit, hi]
    | some m =>
      have hsep : 0 < sep.length := List.length_pos.mpr hne
      have hlen : (s.drop (m + sep.length)).length ≤ n := by
        rw [List.length_drop]; omega
      have ih := genSplit_succ hne n (s.drop (m + sep.length)) hlen
      rw [genSplit, hi]
      simp only []
      rw [ih]
      conv_rhs => rw [genSplit, hi]

/-- What `extractS3Uri` returns, by the offsets of the first two markers. -/
theorem extractS3Uri_eq (line : GoString) :
    extractS3Uri line =
      match Index line marker with
      | none => []
      | some m =>
        marker ++
          (match Index (line.drop (m + 5)) marker with
           | none => line.drop (m + 5)
           | some k => (line.drop (m + 5)).take k) := by
  unfold extractS3Uri Split
  cases h : Index line marker with
  | none => simp [genSplit_none h]
  | some m =>
    have hm := (Index_some h).1
    have hlen : m + 5 ≤ line.length := by
      have := hm.length_le
      rw [marker_length, List.length_drop] at this
      have : 0 < line.length - m := by omega
      omega
    obtain ⟨n, hn⟩ : ∃ n, line.length = n + 1 := ⟨line.length - 1, by omega⟩
    rw [hn]
    simp only [genSplit, h, marker_length]
    cases h2 : Index (line.drop (m + 5)) marker with
    | none => simp [genSplit_none h2]
    | some k =>
      have hk := (Index_some h2).1
      have hlen2 : 5 ≤ (line.drop (m + 5)).length - k := by
        have := hk.length_le
        rwa [marker_length, List.length_drop] at this
      rw [List.length_drop] at hlen2
      obtain ⟨n2, hn2⟩ : ∃ n2, n = n2 + 1 := ⟨n - 1, by omega⟩
      subst hn2
      simp [genSplit, h2]

theorem Index_of_contains {s sep : GoString} (h : Contains s sep = true) :
    ∃ m, Index s sep = some m := by
  unfold Contains at h
  exact Option.isSome_iff_exists.mp h

theorem ReplaceOnce_starts (old new rest : GoString) :
    ReplaceOnce (old ++ rest) old new = new ++ rest := by
  unfold ReplaceOnce
  by_cases h : old = new
  · simp [h]
  · simp [h, Index_of_starts (List.prefix_append old rest)]

/-! ## URI extraction -/

/-- C8: `extractS3Uri(line)` is empty exactly when the line does not contain
`s3://` (as `strings.Contains` decides it, that is, when `s3://` occurs nowhere
in the line), and a non-empty result begins with `s3://`. -/
theorem extractS3Uri_empty_iff (line : GoString) :
    (extractS3Uri line = [] ↔ Contains line marker = false) ∧
    (Contains line marker = false ↔ ¬ marker <:+: line) ∧
    (extractS3Uri line ≠ [] → marker <+: extractS3Uri line) := by
  have e := extractS3Uri_eq line
  refine ⟨?_, ?_, ?_⟩
  · rw [Contains_eq_false_iff]
    cases h : Index line marker with
    | none => rw [h] at e; simpa using e
    | some m => rw [h] at e; simp [e, marker_ne_nil]
  · rw [Contains_eq_false_iff, Index_none_iff]
  · intro hne
    cases h : Index line marker with
    | none => rw [h] at e; exact absurd e hne
    | some m => rw [h] at e; rw [e]; exact List.prefix_append _ _

/-- C8 at two lines: one without the marker, one with it. -/
theorem extractS3Uri_empty_iff_witness :
    extractS3Uri (lit "Completed 1 file(s)") = [] ∧
    marker <+: extractS3Uri (lit "upload: www/a.txt to s3://mybucket/a.txt") :=
  ⟨(extractS3Uri_empty_iff (lit "Completed 1 file(s)")).1.mpr (by decide),
   (extractS3Uri_empty_iff (lit "upload: www/a.txt to s3://mybucket/a.txt")).2.2 (by decide)⟩

/-- C7 fails as stated: on a line with two markers the result ends right before
the second marker, so it is not the rest of the line. -/
theorem extractS3Uri_stops_at_second_marker :
    Contains (lit "copy: s3://a to s3://b") marker = true ∧
    extractS3Uri (lit "copy: s3://a to s3://b") = lit "s3://a to " ∧
    ¬ ∃ pre, lit "copy: s3://a to s3://b" = pre ++ extractS3Uri (lit "copy: s3://a to s3://b") := by
  refine ⟨by decide, by decide, ?_⟩
  rintro ⟨pre, h⟩
  have hs : extractS3Uri (lit "copy: s3://a to s3://b") <:+ lit "copy: s3://a to s3://b" :=
    ⟨pre, h.symm⟩
  revert hs
  decide

/-- C7 (amended): for a line that contains `s3://`, `extractS3Uri(line)` starts at
the first occurrence of the marker and ends right before the second occurrence,
or at the end of the line when there is no second one: the line is
`pre ++ result ++ suf` where no marker starts inside `pre` (and `pre` contains
none), the result is the marker followed by a piece without marker, and `suf`
is empty or starts with the marker. -/
theorem extractS3Uri_first_piece (line : GoString) (h : Contains line marker = true) :
    ∃ pre seg suf, line = pre ++ (marker ++ seg) ++ suf ∧
      (∀ i, i < pre.length → ¬ marker <+: line.drop i) ∧ ¬ marker <:+: pre ∧
      ¬ marker <:+: seg ∧ (suf = [] ∨ marker <+: suf) ∧
      extractS3Uri line = marker ++ seg := by
  obtain ⟨m, hm⟩ := Index_of_contains h
  have e := extractS3Uri_eq line
  simp only [hm] at e
  obtain ⟨hpre, hfirst⟩ := Index_some hm
  have hdrop : line.drop m = marker ++ line.drop (m + 5) := by
    obtain ⟨t, ht⟩ := hpre
    have h5 : line.drop (m + 5) = (line.drop m).drop 5 := by
      simp [List.drop_drop, Nat.add_comm]
    have : line.drop (m + 5) = t := by
      rw [h5, ← ht, ← marker_length, List.drop_left]
    rw [this, ht]
  have hline : line = line.take m ++ (marker ++ line.drop (m + 5)) := by
    rw [← hdrop, List.take_append_drop]
  have hlen : (line.take m).length ≤ m := by simp
  cases h2 : Index (line.drop (m + 5)) marker with
  | none =>
    simp only [h2] at e
    refine ⟨line.take m, line.drop (m + 5), [], ?_, ?_, ?_, ?_, Or.inl rfl, e⟩
    · simpa using hline
    · exact fun i hi => hfirst i (by omega)
    · exact not_infix_take marker_ne_nil hfirst
    · exact Index_none_iff.mp h2
  | some k =>
    simp only [h2] at e
    obtain ⟨hsuf, hsecond⟩ := Index_some h2
    refine ⟨line.take m, (line.drop (m + 5)).take k, (line.drop (m + 5)).drop k, ?_, ?_, ?_, ?_,
      Or.inr hsuf, e⟩
    · rw [List.append_assoc, List.append_assoc, List.take_append_drop]
      exact hline
    · exact fun i hi => hfirst i (by omega)
    · exact not_infix_take marker_ne_nil hfirst
    · exact not_infix_take marker_ne_nil hsecond

/-- C7 (amended) at a line with two markers. -/
theorem extractS3Uri_first_piece_witness :
    Contains (lit "copy: s3://a to s3://b") marker = true ∧
    ∃ pre seg suf, lit "copy: s3://a to s3://b" = pre ++ (marker ++ seg) ++ suf ∧
      (∀ i, i < pre.length → ¬ marker <+: (lit "copy: s3://a to s3://b").drop i) ∧
      ¬ marker <:+: pre ∧ ¬ marker <:+: seg ∧ (suf = [] ∨ marker <+: suf) ∧
      extractS3Uri (lit "copy: s3://a to s3://b") = marker ++ seg :=
  ⟨by decide, extractS3Uri_first_piece (lit "copy: s3://a to s3://b") (by decide)⟩

/-! ## Quote stripping -/

/-- C9: `trimQuotes` removes one pair of surrounding double quotes and nothing
else: `trimQuotes('"' ++ h ++ '"') = h` for every `h`; a string that does not both
begin and end with a double quote is returned unchanged; a string shorter than
two bytes is returned unchanged. -/
theorem trimQuotes_spec :
    (∀ h : GoString, trimQuotes (lit "\"" ++ h ++ lit "\"") = h) ∧
    (∀ s : GoString, ¬ (s.head? = some 34 ∧ s.getLast? = some 34) → trimQuotes s = s) ∧
    (∀ s : GoString, s.length < 2 → trimQuotes s = s) := by
  refine ⟨fun h => ?_, fun s hs => ?_, fun s hs => ?_⟩
  · have hq : lit "\"" = [34] := by decide
    rw [hq]
    unfold trimQuotes
    have h1 : ([34] ++ h ++ [34] : GoString).length = h.length + 2 := by simp
    have h2 : ([34] ++ h ++ [34] : GoString)[h.length + 2 - 1]? = some 34 := by
      show (34 :: (h ++ [34]) : GoString)[h.length + 1]? = some 34
      simp
    have h3 : ([34] ++ h ++ [34] : GoString)[0]? = some 34 := by simp
    rw [h1, h3, h2]
    simp
  · unfold trimQuotes
    rw [List.head?_eq_getElem?, List.getLast?_eq_getElem?] at hs
    simp [hs]
  · unfold trimQuotes
    simp [Nat.not_le.mpr hs]

/-- C9 on a quoted digest, on a doubly quoted one, on an unquoted one and on a
lone quote. -/
theorem trimQuotes_spec_witness :
    trimQuotes (lit "\"" ++ lit "d41d8cd98f00b204e9800998ecf8427e" ++ lit "\"")
      = lit "d41d8cd98f00b204e9800998ecf8427e" ∧
    trimQuotes (lit "\"" ++ lit "\"ab\"" ++ lit "\"") = lit "\"ab\"" ∧
    trimQuotes (lit "\"ab") = lit "\"ab" ∧
    trimQuotes (lit "\"") = lit "\"" :=
  ⟨trimQuotes_spec.1 _, trimQuotes_spec.1 _, trimQuotes_spec.2.1 _ (by decide),
   trimQuotes_spec.2.2 _ (by decide)⟩

/-! ## The bucket name given to the listing command -/

/-- C10 fails as stated: `s3://s3://b` passes the start-up check, and the name given
to the listing command is `s3://b`, which still carries the scheme. -/
theorem bucketNameNoProtocol_keeps_second_scheme :
    validBucket (lit "s3://s3://b") = true ∧
    bucketNameNoProtocol (lit "s3://s3://b") = lit "s3://b" ∧
    HasPrefix (bucketNameNoProtocol (lit "s3://s3://b")) marker = true := by
  decide

/-- The start-up check is `strings.Contains`, so it also lets pass an identifier
that has `s3://` inside and not in front; that identifier reaches the listing
command unchanged. -/
theorem validBucket_accepts_inner_scheme :
    validBucket (lit "xs3://b") = true ∧ HasPrefix (lit "xs3://b") marker = false ∧
    bucketNameNoProtocol (lit "xs3://b") = lit "xs3://b" := by
  decide

/-- C10 (amended): for a bucket identifier that starts with `s3://` (such an
identifier passes the start-up check), the last argument of the listing command
is `bucketNameNoProtocol(bucket)`, and `bucket = "s3://" ++ bucketNameNoProtocol(bucket)`:
exactly one leading `s3://` is removed, so the name starts with `s3://` again
exactly when the identifier starts with `s3://s3://`. -/
theorem bucketNameNoProtocol_strips_one (cfg : Config) (h : HasPrefix cfg.bucket marker = true) :
    validBucket cfg.bucket = true ∧
    listArgs cfg =
      [lit "s3api", lit "list-objects-v2", lit "--bucket", bucketNameNoProtocol cfg.bucket] ∧
    cfg.bucket = marker ++ bucketNameNoProtocol cfg.bucket ∧
    (HasPrefix (bucketNameNoProtocol cfg.bucket) marker = true ↔
      HasPrefix cfg.bucket (marker ++ marker) = true) := by
  have hp : marker <+: cfg.bucket := List.isPrefixOf_iff_prefix.mp h
  obtain ⟨t, ht⟩ := hp
  have hname : bucketNameNoProtocol cfg.bucket = t := by
    unfold bucketNameNoProtocol TrimPrefix
    rw [h]
    simp [← ht]
  refine ⟨?_, rfl, ?_, ?_⟩
  · unfold validBucket
    rw [Contains_iff]
    exact ⟨[], t, by simpa using ht⟩
  · rw [hname, ht]
  · rw [hname]
    unfold HasPrefix
    rw [List.isPrefixOf_iff_prefix, List.isPrefixOf_iff_prefix, ← ht, List.prefix_append_right_inj]

/-- C10 (amended) at `s3://mybucket`. -/
theorem bucketNameNoProtocol_strips_one_witness :
    HasPrefix demoConfig.bucket marker = true ∧
    bucketNameNoProtocol demoConfig.bucket = lit "mybucket" ∧
    demoConfig.bucket = marker ++ bucketNameNoProtocol demoConfig.bucket :=
  ⟨by decide, by decide, (bucketNameNoProtocol_strips_one demoConfig (by decide)).2.2.1⟩

/-! ## The derived URL -/

/-- C6 fails as stated: `/index.html.bak` does not end with `index.html`, yet the
derived URL is not the base URL followed by it: the `index.html` inside is
removed. -/
theorem derivedURL_strips_inner_index_html :
    ¬ lit "index.html" <:+ lit "/index.html.bak" ∧
    derivedURL demoConfig (demoConfig.bucket ++ lit "/index.html.bak")
      = lit "https://example.com/.bak" ∧
    derivedURL demoConfig (demoConfig.bucket ++ lit "/index.html.bak")
      ≠ demoConfig.baseURL ++ lit "/index.html.bak" := by
  decide

/-- C6 (amended): for a URI `bucket ++ rest` the derived URL is `baseURL ++ rest`
with the first occurrence of `index.html` removed, wherever it stands (in the
base URL, inside `rest`, or at its end); it is exactly `baseURL ++ rest` when
`index.html` occurs nowhere in `baseURL ++ rest`. -/
theorem derivedURL_spec (cfg : Config) (rest : GoString) :
    (¬ lit "index.html" <:+: cfg.baseURL ++ rest →
      derivedURL cfg (cfg.bucket ++ rest) = cfg.baseURL ++ rest) ∧
    (∀ p q : GoString, cfg.baseURL ++ rest = p ++ lit "index.html" ++ q →
      (∀ i, i < p.length → ¬ lit "index.html" <+: (cfg.baseURL ++ rest).drop i) →
      derivedURL cfg (cfg.bucket ++ rest) = p ++ q) := by
  have hne : lit "index.html" ≠ [] := by decide
  unfold derivedURL
  simp only [ReplaceOnce_starts]
  refine ⟨fun h => ?_, fun p q hpq hfirst => ?_⟩
  · unfold ReplaceOnce
    simp [hne, Index_none_iff.mpr h]
  · rw [hpq] at hfirst ⊢
    unfold ReplaceOnce
    rw [if_neg hne, Index_eq_length p q hfirst]
    simp [List.append_assoc]

/-- C6 (amended) in scenario C: the URI `s3://mybucket/index.html` with base URL
`https://example.com` gives `https://example.com/`. -/
theorem derivedURL_spec_witness :
    extractS3Uri (lit "upload: ./www/index.html to s3://mybucket/index.html")
      = demoConfig.bucket ++ lit "/index.html" ∧
    derivedURL demoConfig (demoConfig.bucket ++ lit "/index.html") = lit "https://example.com/" ++ [] :=
  ⟨by decide,
   (derivedURL_spec demoConfig (lit "/index.html")).2 (lit "https://example.com/") [] (by decide)
     (by decide)⟩

/-! ## The line loop of `process` -/

theorem extractS3Uri_eq_nil_iff (line : GoString) :
    extractS3Uri line = [] ↔ Contains line marker = false := by
  have e := extractS3Uri_eq line
  rw [Contains_eq_false_iff]
  cases h : Index line marker with
  | none => simp only [h] at e; simpa using e
  | some m => simp only [h] at e; simp [e, marker_ne_nil]

theorem processLine_of_nil {cfg : Config} {st : State} {line : GoString}
    (h : extractS3Uri line = []) : processLine cfg st line = st := by
  simp [processLine, h]

theorem processLine_of_uri {cfg : Config} {st : State} {line : GoString}
    (h : extractS3Uri line ≠ []) :
    (processLine cfg st line).printed = st.printed ++ [line] ∧
    (processLine cfg st line).commands = st.commands ∧
    (processLine cfg st line).written =
      (if cfg.baseURL ≠ [] then st.written ++ [derivedURL cfg (extractS3Uri line)] else st.written) ∧
    (processLine cfg st line).urls =
      (if extractS3Uri line ∈ st.urls then st.urls else st.urls ++ [extractS3Uri line]) := by
  unfold processLine
  simp only [h, ne_eq, not_false_eq_true, if_true]
  by_cases hb : cfg.baseURL = [] <;> simp [hb]

theorem processLines_cons (cfg : Config) (line : GoString) (lines : List GoString) (st : State) :
    processLines cfg (line :: lines) st = processLines cfg lines (processLine cfg st line) := rfl

theorem processLines_commands (cfg : Config) :
    ∀ (lines : List GoString) (st : State), (processLines cfg lines st).commands = st.commands
  | [], _ => rfl
  | line :: lines, st => by
    rw [processLines_cons, processLines_commands cfg lines]
    by_cases h : extractS3Uri line = []
    · rw [processLine_of_nil h]
    · exact (processLine_of_uri h).2.1

theorem processLines_printed (cfg : Config) :
    ∀ (lines : List GoString) (st : State),
      (processLines cfg lines st).printed = st.printed ++ lines.filter (fun l => Contains l marker)
  | [], st => by simp [processLines]
  | line :: lines, st => by
    rw [processLines_cons, processLines_printed cfg lines]
    by_cases h : extractS3Uri line = []
    · rw [processLine_of_nil h]
      simp [(extractS3Uri_eq_nil_iff line).mp h]
    · have hc : Contains line marker = true := by
        cases hh : Contains line marker
        · exact absurd ((extractS3Uri_eq_nil_iff line).mpr hh) h
        · rfl
      rw [(processLine_of_uri h).1]
      simp [hc]

theorem processLines_written (cfg : Config) (hb : cfg.baseURL ≠ []) :
    ∀ (lines : List GoString) (st : State),
      (processLines cfg lines st).written =
        st.written ++ ((lines.map extractS3Uri).filter (fun u => u ≠ [])).map (derivedURL cfg)
  | [], st => by simp [processLines]
  | line :: lines, st => by
    rw [processLines_cons, processLines_written cfg hb lines]
    by_cases h : extractS3Uri line = []
    · rw [processLine_of_nil h]
      simp [h]
    · rw [(processLine_of_uri h).2.2.1]
      simp [h, hb]

theorem processLines_urls (cfg : Config) :
    ∀ (lines : List GoString) (st : State) (u : GoString),
      u ∈ (processLines cfg lines st).urls ↔
        u ∈ st.urls ∨ (u ≠ [] ∧ u ∈ lines.map extractS3Uri)
  | [], st, u => by simp [processLines]
  | line :: lines, st, u => by
    rw [processLines_cons, processLines_urls cfg lines]
    by_cases h : extractS3Uri line = []
    · rw [processLine_of_nil h]
      simp only [List.map_cons, List.mem_cons, h]
      constructor
      · rintro (h1 | ⟨h1, h2⟩)
        · exact Or.inl h1
        · exact Or.inr ⟨h1, Or.inr h2⟩
      · rintro (h1 | ⟨h1, h2 | h2⟩)
        · exact Or.inl h1
        · exact absurd h2 h1
        · exact Or.inr ⟨h1, h2⟩
    · rw [(processLine_of_uri h).2.2.2]
      simp only [List.map_cons, List.mem_cons]
      by_cases hm : extractS3Uri line ∈ st.urls
      · rw [if_pos hm]
        constructor
        · rintro (h1 | ⟨h1, h2⟩)
          · exact Or.inl h1
          · exact Or.inr ⟨h1, Or.inr h2⟩
        · rintro (h1 | ⟨h1, h2 | h2⟩)
          · exact Or.inl h1
          · exact Or.inl (h2 ▸ hm)
          · exact Or.inr ⟨h1, h2⟩
      · rw [if_neg hm]
        simp only [List.mem_append, List.mem_singleton]
        constructor
        · rintro ((h1 | h1) | ⟨h1, h2⟩)
          · exact Or.inl h1
          · exact Or.inr ⟨h1 ▸ h, Or.inl h1⟩
          · exact Or.inr ⟨h1, Or.inr h2⟩
        · rintro (h1 | ⟨h1, h2 | h2⟩)
          · exact Or.inl (Or.inl h1)
          · exact Or.inl (Or.inr h2)
          · exact Or.inr ⟨h1, h2⟩

theorem process_state (cfg : Config) (w : World) (args : List GoString) (st : State) :
    (process cfg w args st).state =
      processLines cfg (w.run st.commands args).lines { st with commands := st.commands ++ [args] } := by
  by_cases h : (w.run st.commands args).ok = true <;> simp [process, h, Outcome.state]

theorem process_commands (cfg : Config) (w : World) (args : List GoString) (st : State) :
    (process cfg w args st).state.commands = st.commands ++ [args] := by
  rw [process_state, processLines_commands]

/-- C3 fails as stated: with a base URL set, a child that prints the same upload
line twice makes `process` call `writeURLtoFile` twice with the same URL, although
the URI is already in `urls` at the second line. -/
theorem process_writes_repeated_uri_twice :
    demoConfig.baseURL ≠ [] ∧
    (process demoConfig
        (echoWorld [lit "upload: www/b.txt to s3://mybucket/b.txt",
          lit "upload: www/b.txt to s3://mybucket/b.txt"])
        (syncArgs demoConfig) State.init).state.written
      = [lit "https://example.com/b.txt", lit "https://example.com/b.txt"] ∧
    (process demoConfig
        (echoWorld [lit "upload: www/b.txt to s3://mybucket/b.txt",
          lit "upload: www/b.txt to s3://mybucket/b.txt"])
        (syncArgs demoConfig) State.init).state.urls
      = [lit "s3://mybucket/b.txt"] := by
  decide

/-- C3 (amended): with a non-empty base URL, `process` calls `writeURLtoFile` once
for every line from which a URI is extracted, in line order and with the URL
derived from that URI, whether or not the URI was seen before: a URI extracted
from `n` lines is written `n` times.  The set `urls` only records the URI: after
the call it holds what it held before and every extracted URI. -/
theorem process_writes_every_uri (cfg : Config) (w : World) (args : List GoString) (st : State)
    (hb : cfg.baseURL ≠ []) :
    (process cfg w args st).state.written =
      st.written ++
        (((w.run st.commands args).lines.map extractS3Uri).filter (fun u => u ≠ [])).map
          (derivedURL cfg) ∧
    ∀ u, u ∈ (process cfg w args st).state.urls ↔
      u ∈ st.urls ∨ (u ≠ [] ∧ u ∈ (w.run st.commands args).lines.map extractS3Uri) := by
  rw [process_state]
  exact ⟨processLines_written cfg hb _ _, processLines_urls cfg _ _⟩

/-- C3 (amended) on a child that prints the same upload line twice. -/
theorem process_writes_every_uri_witness :
    demoConfig.baseURL ≠ [] ∧
    (process demoConfig
        (echoWorld [lit "upload: www/b.txt to s3://mybucket/b.txt",
          lit "upload: www/b.txt to s3://mybucket/b.txt"])
        (syncArgs demoConfig) State.init).state.written =
      State.init.written ++
        ((([lit "upload: www/b.txt to s3://mybucket/b.txt",
            lit "upload: www/b.txt to s3://mybucket/b.txt"].map extractS3Uri).filter
          (fun u => u ≠ [])).map (derivedURL demoConfig)) :=
  ⟨by decide,
   (process_writes_every_uri demoConfig
      (echoWorld [lit "upload: www/b.txt to s3://mybucket/b.txt",
        lit "upload: www/b.txt to s3://mybucket/b.txt"])
      (syncArgs demoConfig) State.init (by decide)).1⟩

/-- C4 fails as stated: a child prints a line without marker and an upload line;
only the upload line is printed, so what is printed is not what was read. -/
theorem process_drops_line_without_marker :
    (process demoConfig
        (echoWorld [lit "Completed 1 file(s)", lit "upload: www/b.txt to s3://mybucket/b.txt"])
        (syncArgs demoConfig) State.init).state.printed
      = [lit "upload: www/b.txt to s3://mybucket/b.txt"] ∧
    (process demoConfig
        (echoWorld [lit "Completed 1 file(s)", lit "upload: www/b.txt to s3://mybucket/b.txt"])
        (syncArgs demoConfig) State.init).state.printed
      ≠ [lit "Completed 1 file(s)", lit "upload: www/b.txt to s3://mybucket/b.txt"] := by
  decide

/-- C4 (amended): `process` prints, in the original order, exactly the lines that
contain `s3://`.  A line without the marker yields no URI and leaves the whole
state as it was: no entry in `urls`, no call of `writeURLtoFile`, and no print. -/
theorem process_prints_marker_lines (cfg : Config) (w : World) (args : List GoString)
    (st : State) (line : GoString) :
    (process cfg w args st).state.printed =
      st.printed ++ (w.run st.commands args).lines.filter (fun l => Contains l marker) ∧
    (Contains line marker = false →
      extractS3Uri line = [] ∧ processLine cfg st line = st) := by
  refine ⟨?_, fun h => ?_⟩
  · rw [process_state, processLines_printed]
  · have h0 := (extractS3Uri_eq_nil_iff line).mpr h
    exact ⟨h0, processLine_of_nil h0⟩

/-- C4 (amended) on a child that prints a line without marker and an upload line. -/
theorem process_prints_marker_lines_witness :
    (process demoConfig
        (echoWorld [lit "Completed 1 file(s)", lit "upload: www/b.txt to s3://mybucket/b.txt"])
        (syncArgs demoConfig) State.init).state.printed =
      State.init.printed ++
        [lit "Completed 1 file(s)", lit "upload: www/b.txt to s3://mybucket/b.txt"].filter
          (fun l => Contains l marker) ∧
    processLine demoConfig State.init (lit "Completed 1 file(s)") = State.init :=
  ⟨(process_prints_marker_lines demoConfig
      (echoWorld [lit "Completed 1 file(s)", lit "upload: www/b.txt to s3://mybucket/b.txt"])
      (syncArgs demoConfig) State.init (lit "Completed 1 file(s)")).1,
   ((process_prints_marker_lines demoConfig (echoWorld []) (syncArgs demoConfig) State.init
      (lit "Completed 1 file(s)")).2 (by decide)).2⟩

/-! ## The loop of `sync` -/

/-- The commands that the loop creates are copy commands of objects of the
listing, at most one per object and in listing order. -/
theorem syncObjects_commands (cfg : Config) (w : World) :
    ∀ (objs : List bucketObject) (st : State),
      ∃ later, (syncObjects cfg w objs st).state.commands = st.commands ++ later ∧
        List.Sublist later (objs.map (copyArgs cfg))
  | [], st => ⟨[], by simp [syncObjects, Outcome.state], List.Sublist.refl _⟩
  | obj :: rest, st => by
    have skip : ∃ later, (syncObjects cfg w rest st).state.commands = st.commands ++ later ∧
        List.Sublist later ((obj :: rest).map (copyArgs cfg)) := by
      obtain ⟨later, h1, h2⟩ := syncObjects_commands cfg w rest st
      exact ⟨later, h1, h2.cons _⟩
    unfold syncObjects
    cases hh : w.hashFileMD5 st.commands (localPath cfg obj) with
    | notFound => simpa using skip
    | ioError => exact ⟨[], by simp [Outcome.state], List.nil_sublist _⟩
    | digest fileHash =>
      simp only []
      by_cases hne : fileHash ≠ trimQuotes obj.ETag
      · rw [if_pos hne]
        by_cases hseen : localPath cfg obj ∈ st.urls
        · rw [if_pos hseen]
          exact skip
        · rw [if_neg hseen]
          have hc := process_commands cfg w (copyArgs cfg obj) st
          cases hp : process cfg w (copyArgs cfg obj) st with
          | fatal st1 =>
            rw [hp] at hc
            refine ⟨[copyArgs cfg obj], hc, ?_⟩
            simp
          | returned st1 =>
            rw [hp] at hc
            simp only [Outcome.state] at hc
            obtain ⟨later, h1, h2⟩ := syncObjects_commands cfg w rest st1
            refine ⟨copyArgs cfg obj :: later, ?_, ?_⟩
            · simp only []
              rw [h1, hc]
              simp
            · simpa using h2
      · rw [if_neg hne]
        exact skip

theorem syncObjects_cons_same (cfg : Config) (w : World) (obj : bucketObject)
    (rest : List bucketObject) (st : State) (fileHash : GoString)
    (hread : w.hashFileMD5 st.commands (localPath cfg obj) = .digest fileHash)
    (heq : fileHash = trimQuotes obj.ETag) :
    syncObjects cfg w (obj :: rest) st = syncObjects cfg w rest st := by
  rw [syncObjects, hread]
  simp [heq]

theorem syncObjects_cons_copy (cfg : Config) (w : World) (obj : bucketObject)
    (rest : List bucketObject) (st : State) (fileHash : GoString)
    (hread : w.hashFileMD5 st.commands (localPath cfg obj) = .digest fileHash)
    (hne : fileHash ≠ trimQuotes obj.ETag) (hseen : localPath cfg obj ∉ st.urls) :
    syncObjects cfg w (obj :: rest) st =
      match process cfg w (copyArgs cfg obj) st with
      | .fatal st1 => .fatal st1
      | .returned st1 => syncObjects cfg w rest st1 := by
  rw [syncObjects, hread]
  simp [hne, hseen]

theorem syncObjects_append (cfg : Config) (w : World) :
    ∀ (pre post : List bucketObject) (st : State),
      syncObjects cfg w (pre ++ post) st =
        match syncObjects cfg w pre st with
        | .fatal st1 => .fatal st1
        | .returned st1 => syncObjects cfg w post st1
  | [], post, st => by simp [syncObjects]
  | obj :: pre, post, st => by
    simp only [List.cons_append, syncObjects]
    cases w.hashFileMD5 st.commands (localPath cfg obj) with
    | notFound => exact syncObjects_append cfg w pre post st
    | ioError => rfl
    | digest fileHash =>
      simp only []
      by_cases hne : fileHash ≠ trimQuotes obj.ETag
      · rw [if_pos hne, if_pos hne]
        by_cases hseen : localPath cfg obj ∈ st.urls
        · rw [if_pos hseen, if_pos hseen]
          exact syncObjects_append cfg w pre post st
        · rw [if_neg hseen, if_neg hseen]
          cases process cfg w (copyArgs cfg obj) st with
          | fatal st1 => rfl
          | returned st1 => exact syncObjects_append cfg w pre post st1
      · rw [if_neg hne, if_neg hne]
        exact syncObjects_append cfg w pre post st

theorem syncObjects_reached (cfg : Config) (w : World) (pre post : List bucketObject)
    (st0 st : State) (hreach : syncObjects cfg w pre st0 = .returned st) :
    syncObjects cfg w (pre ++ post) st0 = syncObjects cfg w post st := by
  rw [syncObjects_append, hreach]

/-! ## What the lookup in `urls` can find -/

theorem extractS3Uri_starts {line : GoString} (h : extractS3Uri line ≠ []) :
    marker <+: extractS3Uri line := by
  have e := extractS3Uri_eq line
  cases hi : Index line marker with
  | none => simp only [hi] at e; exact absurd e h
  | some m => simp only [hi] at e; rw [e]; exact List.prefix_append _ _

/-- Every key that `process` adds to `urls` starts with `s3://`. -/
theorem process_urls_marker (cfg : Config) (w : World) (args : List GoString) (st : State)
    (h : ∀ u, u ∈ st.urls → marker <+: u) :
    ∀ u, u ∈ (process cfg w args st).state.urls → marker <+: u := by
  intro u hu
  rw [process_state, processLines_urls] at hu
  rcases hu with hu | ⟨hne, hu⟩
  · exact h u hu
  · obtain ⟨line, -, rfl⟩ := List.mem_map.mp hu
    exact extractS3Uri_starts hne

theorem syncObjects_urls_marker (cfg : Config) (w : World) :
    ∀ (objs : List bucketObject) (st : State), (∀ u, u ∈ st.urls → marker <+: u) →
      ∀ u, u ∈ (syncObjects cfg w objs st).state.urls → marker <+: u
  | [], st, h => by simpa [syncObjects, Outcome.state] using h
  | obj :: rest, st, h => by
    unfold syncObjects
    cases w.hashFileMD5 st.commands (localPath cfg obj) with
    | notFound => exact syncObjects_urls_marker cfg w rest st h
    | ioError => simpa [Outcome.state] using h
    | digest fileHash =>
      simp only []
      by_cases hne : fileHash ≠ trimQuotes obj.ETag
      · rw [if_pos hne]
        by_cases hseen : localPath cfg obj ∈ st.urls
        · rw [if_pos hseen]
          exact syncObjects_urls_marker cfg w rest st h
        · rw [if_neg hseen]
          have hp := process_urls_marker cfg w (copyArgs cfg obj) st h
          cases hq : process cfg w (copyArgs cfg obj) st with
          | fatal st1 => rw [hq] at hp; exact hp
          | returned st1 =>
            rw [hq] at hp
            exact syncObjects_urls_marker cfg w rest st1 hp
      · rw [if_neg hne]
        exact syncObjects_urls_marker cfg w rest st h

/-- In a run of `sync` from the initial state every key of `urls` starts with
`s3://`, so the lookup of a local path that does not start with `s3://` finds
nothing. -/
theorem sync_urls_marker (cfg : Config) (w : World) :
    ∀ u, u ∈ (sync cfg w State.init).state.urls → marker <+: u := by
  have h0 : ∀ u, u ∈ State.init.urls → marker <+: u := by simp [State.init]
  have hp := process_urls_marker cfg w (syncArgs cfg) State.init h0
  unfold sync
  cases hq : process cfg w (syncArgs cfg) State.init with
  | fatal st1 => rw [hq] at hp; exact hp
  | returned st1 =>
    rw [hq] at hp
    simp only [Outcome.state] at hp
    simp only [getBucketObjects]
    cases w.list st1.commands (listArgs cfg) with
    | runError out => exact hp
    | parseError => exact hp
    | listed objList => exact syncObjects_urls_marker cfg w objList.Contents _ hp

theorem copyArgs_eq (cfg : Config) (obj : bucketObject) :
    copyArgs cfg obj =
      [lit "s3", lit "cp", localPath cfg obj, localPath cfg obj] ++
        (if cfg.dryRun then [lit "--dryrun"] else []) := by
  unfold copyArgs
  cases cfg.dryRun <;> simp

theorem process_returned (cfg : Config) (w : World) (args : List GoString) (st : State)
    (hok : (w.run st.commands args).ok = true) :
    process cfg w args st = .returned (process cfg w args st).state := by
  simp [process, hok, Outcome.state]

/-- The loop returns when no object fails to hash with an error other than "not
found" and no copy command fails. -/
theorem syncObjects_returns (cfg : Config) (w : World) :
    ∀ (objs : List bucketObject) (st : State),
      (∀ history obj, obj ∈ objs → w.hashFileMD5 history (localPath cfg obj) ≠ .ioError) →
      (∀ history obj, obj ∈ objs → (w.run history (copyArgs cfg obj)).ok = true) →
      ∃ st1, syncObjects cfg w objs st = .returned st1
  | [], st, _, _ => ⟨st, rfl⟩
  | obj :: rest, st, hhash, hok => by
    have ih := fun st1 => syncObjects_returns cfg w rest st1
      (fun history o ho => hhash history o (List.mem_cons_of_mem _ ho))
      (fun history o ho => hok history o (List.mem_cons_of_mem _ ho))
    unfold syncObjects
    cases hh : w.hashFileMD5 st.commands (localPath cfg obj) with
    | notFound => exact ih st
    | ioError => exact absurd hh (hhash st.commands obj (List.mem_cons_self _ _))
    | digest fileHash =>
      simp only []
      by_cases hne : fileHash ≠ trimQuotes obj.ETag
      · rw [if_pos hne]
        by_cases hseen : localPath cfg obj ∈ st.urls
        · rw [if_pos hseen]
          exact ih st
        · rw [if_neg hseen,
            process_returned cfg w (copyArgs cfg obj) st (hok st.commands obj (List.mem_cons_self _ _))]
          exact ih _
      · rw [if_neg hne]
        exact ih st

/-- The loop against the claim's account: in a world where hashing an object gives
`r obj` whenever it is asked, never an error other than "not found", where no
copy command fails, and where no local path starts with `s3://` (so none is ever
a key of `urls`), the loop returns and the commands it created are `specCopies`. -/
theorem syncObjects_exact (cfg : Config) (w : World) (r : bucketObject → HashResult) :
    ∀ (objs : List bucketObject) (st : State),
      (∀ u, u ∈ st.urls → marker <+: u) →
      (∀ obj, obj ∈ objs → ¬ marker <+: localPath cfg obj) →
      (∀ history obj, obj ∈ objs → w.hashFileMD5 history (localPath cfg obj) = r obj) →
      (∀ obj, obj ∈ objs → r obj ≠ .ioError) →
      (∀ history obj, obj ∈ objs → (w.run history (copyArgs cfg obj)).ok = true) →
      ∃ st1, syncObjects cfg w objs st = .returned st1 ∧
        st1.commands = st.commands ++ specCopies cfg r objs
  | [], st, _, _, _, _, _ => ⟨st, rfl, by simp [specCopies]⟩
  | obj :: rest, st, hurls, hpaths, hhash, hio, hok => by
    have ih := fun st1 hu => syncObjects_exact cfg w r rest st1 hu
      (fun o ho => hpaths o (List.mem_cons_of_mem _ ho))
      (fun history o ho => hhash history o (List.mem_cons_of_mem _ ho))
      (fun o ho => hio o (List.mem_cons_of_mem _ ho))
      (fun history o ho => hok history o (List.mem_cons_of_mem _ ho))
    have hr := hhash st.commands obj (List.mem_cons_self _ _)
    have hnotseen : localPath cfg obj ∉ st.urls :=
      fun hseen => hpaths obj (List.mem_cons_self _ _) (hurls _ hseen)
    unfold syncObjects
    rw [hr]
    cases hro : r obj with
    | notFound =>
      obtain ⟨st1, h1, h2⟩ := ih st hurls
      exact ⟨st1, h1, by simpa [specCopies, hro] using h2⟩
    | ioError => exact absurd hro (hio obj (List.mem_cons_self _ _))
    | digest fileHash =>
      simp only []
      by_cases hne : fileHash ≠ trimQuotes obj.ETag
      · rw [if_pos hne, if_neg hnotseen,
          process_returned cfg w (copyArgs cfg obj) st (hok st.commands obj (List.mem_cons_self _ _))]
        obtain ⟨st1, h1, h2⟩ := ih (process cfg w (copyArgs cfg obj) st).state
          (process_urls_marker cfg w (copyArgs cfg obj) st hurls)
        refine ⟨st1, h1, ?_⟩
        rw [h2, process_commands, copyArgs_eq]
        simp [specCopies, hro, hne, localPath]
      · rw [if_neg hne]
        obtain ⟨st1, h1, h2⟩ := ih st hurls
        refine ⟨st1, h1, ?_⟩
        rw [h2]
        simp [specCopies, hro, hne]

/-- C1: the loop of `sync` decides per object, by the digest of its local file.
(1) For every listing `pre ++ obj :: rest` and the state `st` in which the loop
reaches `obj`, when the local file of `obj` can be read: if its digest equals
`trimQuotes(ETag)`, the run is the run on the listing without `obj`, so no copy
command is created for it; if the digest differs and the local path is not in
`urls`, the run creates the copy command of `obj` next, once, handles its output
and, unless that command failed, goes on with the later objects exactly as the
loop over `rest` does from there; commands before it belong to earlier objects,
commands after it to later objects, in listing order.
(2) The loop reaches every object and returns when no hashing fails with an error
other than "not found" and no copy command fails.
(3) In such a world, with hashing results `r` and local paths that do not start
with `s3://`, the commands of the whole pass are exactly `specCopies`: one copy
for every readable object whose digest differs, none for the others, in listing
order.
(4) The copy command is `s3 cp localPath localPath`, followed by `--dryrun` exactly
under dry-run. -/
theorem sync_copy_decision (cfg : Config) (w : World) :
    (∀ (pre : List bucketObject) (obj : bucketObject) (rest : List bucketObject)
        (st0 st : State) (fileHash : GoString),
      syncObjects cfg w pre st0 = .returned st →
      w.hashFileMD5 st.commands (localPath cfg obj) = .digest fileHash →
      (∃ earlier, st.commands = st0.commands ++ earlier ∧
        List.Sublist earlier (pre.map (copyArgs cfg))) ∧
      (fileHash = trimQuotes obj.ETag →
        syncObjects cfg w (pre ++ obj :: rest) st0 = syncObjects cfg w (pre ++ rest) st0 ∧
        ∃ later, (syncObjects cfg w (pre ++ obj :: rest) st0).state.commands
            = st.commands ++ later ∧
          List.Sublist later (rest.map (copyArgs cfg))) ∧
      (fileHash ≠ trimQuotes obj.ETag → localPath cfg obj ∉ st.urls →
        syncObjects cfg w (pre ++ obj :: rest) st0 =
          (match process cfg w (copyArgs cfg obj) st with
           | .fatal st1 => .fatal st1
           | .returned st1 => syncObjects cfg w rest st1) ∧
        (process cfg w (copyArgs cfg obj) st).state.commands
          = st.commands ++ [copyArgs cfg obj] ∧
        ∃ later, (syncObjects cfg w (pre ++ obj :: rest) st0).state.commands
            = st.commands ++ copyArgs cfg obj :: later ∧
          List.Sublist later (rest.map (copyArgs cfg)))) ∧
    (∀ (objs : List bucketObject) (st : State),
      (∀ history obj, obj ∈ objs → w.hashFileMD5 history (localPath cfg obj) ≠ .ioError) →
      (∀ history obj, obj ∈ objs → (w.run history (copyArgs cfg obj)).ok = true) →
      ∃ st1, syncObjects cfg w objs st = .returned st1) ∧
    (∀ (r : bucketObject → HashResult) (objs : List bucketObject) (st : State),
      (∀ u, u ∈ st.urls → marker <+: u) →
      (∀ obj, obj ∈ objs → ¬ marker <+: localPath cfg obj) →
      (∀ history obj, obj ∈ objs → w.hashFileMD5 history (localPath cfg obj) = r obj) →
      (∀ obj, obj ∈ objs → r obj ≠ .ioError) →
      (∀ history obj, obj ∈ objs → (w.run history (copyArgs cfg obj)).ok = true) →
      ∃ st1, syncObjects cfg w objs st = .returned st1 ∧
        st1.commands = st.commands ++ specCopies cfg r objs) ∧
    (∀ obj : bucketObject, copyArgs cfg obj =
      [lit "s3", lit "cp", localPath cfg obj, localPath cfg obj] ++
        (if cfg.dryRun then [lit "--dryrun"] else [])) := by
  refine ⟨?_, syncObjects_returns cfg w, syncObjects_exact cfg w, copyArgs_eq cfg⟩
  intro pre obj rest st0 st fileHash hreach hread
  have hhere := syncObjects_reached cfg w pre (obj :: rest) st0 st hreach
  have hrest := syncObjects_reached cfg w pre rest st0 st hreach
  refine ⟨?_, fun heq => ?_, fun hne hseen => ?_⟩
  · obtain ⟨earlier, h1, h2⟩ := syncObjects_commands cfg w pre st0
    rw [hreach] at h1
    exact ⟨earlier, h1, h2⟩
  · have h := syncObjects_cons_same cfg w obj rest st fileHash hread heq
    rw [hhere, hrest, h]
    exact ⟨rfl, syncObjects_commands cfg w rest st⟩
  · have hstep := syncObjects_cons_copy cfg w obj rest st fileHash hread hne hseen
    have hc := process_commands cfg w (copyArgs cfg obj) st
    refine ⟨by rw [hhere, hstep], hc, ?_⟩
    rw [hhere, hstep]
    cases hp : process cfg w (copyArgs cfg obj) st with
    | fatal st1 =>
      rw [hp] at hc
      exact ⟨[], hc, List.nil_sublist _⟩
    | returned st1 =>
      rw [hp] at hc
      simp only [Outcome.state] at hc
      obtain ⟨later, h1, h2⟩ := syncObjects_commands cfg w rest st1
      refine ⟨later, ?_, h2⟩
      simp only []
      rw [h1, hc]
      simp

/-- C1 on concrete listings.  Scenario A: `a.txt`, whose tag is the digest of the
empty file and whose local file is empty, is passed over.  Scenario B: `b.txt`,
with the all-zero tag and a local file of another digest, is copied once.  A copy
followed by further objects: on the listing `b.txt`, `a.txt`, `e.txt` the pass
returns after exactly two commands, the copy of `b.txt` and then the copy of
`e.txt`; after the copy of `b.txt` the loop goes on with `a.txt`, `e.txt`. -/
theorem sync_copy_decision_witness :
    (syncObjects demoConfig demoWorld [] State.init = .returned State.init ∧
      demoWorld.hashFileMD5 State.init.commands (localPath demoConfig objA)
        = .digest (lit "d41d8cd98f00b204e9800998ecf8427e") ∧
      syncObjects demoConfig demoWorld ([] ++ objA :: [objB]) State.init
        = syncObjects demoConfig demoWorld ([] ++ [objB]) State.init) ∧
    (syncObjects demoConfig demoWorld [objA] State.init = .returned State.init ∧
      demoWorld.hashFileMD5 State.init.commands (localPath demoConfig objB)
        = .digest (lit "9e107d9d372bb6826bd81d3542a419d6") ∧
      ∃ later, (syncObjects demoConfig demoWorld ([objA] ++ objB :: []) State.init).state.commands
          = State.init.commands ++ copyArgs demoConfig objB :: later ∧
        List.Sublist later (([] : List bucketObject).map (copyArgs demoConfig))) ∧
    (syncObjects demoConfig copyWorld ([] ++ objB :: [objA, objE]) State.init =
      (match process demoConfig copyWorld (copyArgs demoConfig objB) State.init with
       | .fatal st1 => .fatal st1
       | .returned st1 => syncObjects demoConfig copyWorld [objA, objE] st1)) ∧
    (∃ st1, syncObjects demoConfig copyWorld [objB, objA, objE] State.init = .returned st1 ∧
      st1.commands
        = State.init.commands ++ specCopies demoConfig copyWorldHash [objB, objA, objE]) ∧
    specCopies demoConfig copyWorldHash [objB, objA, objE]
      = [[lit "s3", lit "cp", lit "www/b.txt", lit "www/b.txt"],
         [lit "s3", lit "cp", lit "www/e.txt", lit "www/e.txt"]] ∧
    copyArgs dryConfig objB = [lit "s3", lit "cp", lit "www/b.txt", lit "www/b.txt", lit "--dryrun"] :=
  ⟨⟨by decide, by decide,
     (((sync_copy_decision demoConfig demoWorld).1 [] objA [objB] State.init State.init
        (lit "d41d8cd98f00b204e9800998ecf8427e") (by decide) (by decide)).2.1 (by decide)).1⟩,
   ⟨by decide, by decide,
     (((sync_copy_decision demoConfig demoWorld).1 [objA] objB [] State.init State.init
        (lit "9e107d9d372bb6826bd81d3542a419d6") (by decide) (by decide)).2.2 (by decide)
        (by decide)).2.2⟩,
   (((sync_copy_decision demoConfig copyWorld).1 [] objB [objA, objE] State.init State.init
      (lit "9e107d9d372bb6826bd81d3542a419d6") (by decide) (by decide)).2.2 (by decide)
      (by decide)).1,
   (sync_copy_decision demoConfig copyWorld).2.2.1 copyWorldHash [objB, objA, objE] State.init
     (by decide) (by decide) (fun _ _ _ => rfl) (by decide) (fun _ _ _ => rfl),
   by decide, by decide⟩

/-- The pass over `b.txt`, `a.txt`, `e.txt` evaluated: two commands, the copies of
`b.txt` and `e.txt`, and the pass returns. -/
theorem sync_two_copies :
    ∃ st1, syncObjects demoConfig copyWorld [objB, objA, objE] State.init = .returned st1 ∧
      st1.commands = [copyArgs demoConfig objB, copyArgs demoConfig objE] :=
  ⟨_, rfl, by decide⟩

/-- Scenarios A and B evaluated: the loop over `a.txt`, `b.txt` creates exactly one
command, the copy of `b.txt`. -/
theorem sync_scenarios_A_B :
    (syncObjects demoConfig demoWorld [objA, objB] State.init).state.commands
      = [[lit "s3", lit "cp", lit "www/b.txt", lit "www/b.txt"]] := by
  decide

/-- C2: in the loop of `sync`, for every listing `pre ++ obj :: rest` and the state
`st` in which the loop reaches `obj`: when hashing `obj` fails with an error for
which `os.IsNotExist` holds, the run is the run on the listing without `obj`, so
nothing is run for `obj`, the run does not end there and every later object is
examined as before; when hashing fails with any other error the run ends at once,
fatally and in the state reached so far, whatever the later objects are, so none
of them is examined and no further command is created. -/
theorem sync_hash_errors (cfg : Config) (w : World) (pre : List bucketObject)
    (obj : bucketObject) (rest : List bucketObject) (st0 st : State)
    (hreach : syncObjects cfg w pre st0 = .returned st) :
    (w.hashFileMD5 st.commands (localPath cfg obj) = .notFound →
      syncObjects cfg w (pre ++ obj :: rest) st0 = syncObjects cfg w (pre ++ rest) st0 ∧
      ∃ later, (syncObjects cfg w (pre ++ obj :: rest) st0).state.commands
          = st.commands ++ later ∧
        List.Sublist later (rest.map (copyArgs cfg))) ∧
    (w.hashFileMD5 st.commands (localPath cfg obj) = .ioError →
      syncObjects cfg w (pre ++ obj :: rest) st0 = .fatal st ∧
      (syncObjects cfg w (pre ++ obj :: rest) st0).state.commands = st.commands) := by
  have hhere := syncObjects_reached cfg w pre (obj :: rest) st0 st hreach
  have hrest := syncObjects_reached cfg w pre rest st0 st hreach
  refine ⟨fun h => ?_, fun h => ?_⟩
  · have e : syncObjects cfg w (obj :: rest) st = syncObjects cfg w rest st := by
      rw [syncObjects, h]
    rw [hhere, hrest, e]
    exact ⟨rfl, syncObjects_commands cfg w rest st⟩
  · have e : syncObjects cfg w (obj :: rest) st = .fatal st := by
      rw [syncObjects, h]
    rw [hhere, e]
    exact ⟨rfl, rfl⟩

/-- C2 on the listing `a.txt`, `d.txt`, `b.txt` (`d.txt` has no local file) and on
`a.txt`, `c.txt`, `b.txt` (`c.txt` cannot be read); `b.txt` needs a copy. -/
theorem sync_hash_errors_witness :
    syncObjects demoConfig demoWorld [objA] State.init = .returned State.init ∧
    (syncObjects demoConfig demoWorld ([objA] ++ objD :: [objB]) State.init
        = syncObjects demoConfig demoWorld ([objA] ++ [objB]) State.init ∧
      (syncObjects demoConfig demoWorld ([objA] ++ objD :: [objB]) State.init).state.commands
        = [copyArgs demoConfig objB]) ∧
    (syncObjects demoConfig demoWorld ([objA] ++ objC :: [objB]) State.init = .fatal State.init ∧
      (syncObjects demoConfig demoWorld ([objA] ++ objC :: [objB]) State.init).state.commands
        = []) :=
  ⟨by decide,
   ⟨((sync_hash_errors demoConfig demoWorld [objA] objD [objB] State.init State.init
        (by decide)).1 (by decide)).1, by decide⟩,
   (sync_hash_errors demoConfig demoWorld [objA] objC [objB] State.init State.init
      (by decide)).2 (by decide)⟩

/-- C5, the run at the failing input: the full sync reports the upload of
`s3://mybucket/b.txt`, which `process` records in `urls`; the loop looks up the
local path `www/b.txt` instead, does not find it, and copies `b.txt` again. -/
theorem sync_copies_object_seen_in_full_sync :
    demoConfig.bucket ++ lit "/" ++ objB.Key
      ∈ (process demoConfig demoWorld (syncArgs demoConfig) State.init).state.urls ∧
    localPath demoConfig objB
      ∉ (process demoConfig demoWorld (syncArgs demoConfig) State.init).state.urls ∧
    (sync demoConfig demoWorld State.init).state.commands
      = [syncArgs demoConfig, listArgs demoConfig, copyArgs demoConfig objB] := by
  decide

end S3Sync
